import Mathlib

/-!
Shallow embedding of the admin-list contract in
`src/Cluster 1_Week 1/Code Journal/contract.rs` (message types from
`msg.rs`, entry points from `lib.rs`).

Modelling choices:
* `cosmwasm_std::Addr` is a validated address wrapping a string and compared
  by string equality, so `Addr := String`.
* The external address validator `deps.api.addr_validate` is an external
  collaborator (spec section 6: `validate(raw: string) -> identity | rejection`);
  it is a parameter `api : Validator` of every operation that uses it.
* Persistent storage holds the single `ADMINS` item (`Item<Vec<Addr>>` used in
  `contract.rs` through `load`, `save` and `update`); it is `none` before the
  first save and `some admins` afterwards.  `Item::load` fails on `none`,
  `Item::save` overwrites, `Item::update` is load-apply-save.
* `DepsMut` mutation is modelled by threading the storage value: every entry
  point returns the storage as it stands when the function returns, so an
  early `return`/`?` carries the storage unchanged and a `save` replaces it.
  Write ordering inside a handler is therefore visible in the embedding.
* JSON serialization (`to_binary`) is a host-boundary concern and is dropped:
  `query` returns the tagged response value itself.
-/

deriving instance DecidableEq for Except

/-- Canonical validated identity (`cosmwasm_std::Addr`). -/
abbrev Addr := String

/-- Host-level error (`cosmwasm_std::StdError`) as used by this contract:
address validation rejection from `addr_validate`, or the missing-item
failure of `Item::load` on uninitialized storage. -/
inductive StdError where
  | validationError (raw : String)
  | notFound
deriving DecidableEq, Repr

/-- The contract error type.  `error.rs` is not among the source files, but
its shape is fixed by `contract.rs` and its tests: a `Unauthorized { sender }`
variant built in `exec::add_members`, and a `From<StdError>` conversion used
by the `?` operator and by `.map_err(Into::into)`. -/
inductive ContractError where
  | unauthorized (sender : Addr)
  | std (err : StdError)
deriving DecidableEq, Repr

/-- `cosmwasm_std::MessageInfo`: the call context; only the sender is used. -/
structure MessageInfo where
  sender : Addr
deriving DecidableEq, Repr

/-- `cosmwasm_std::Response::new()`: a trivial empty response. -/
structure Response where
deriving DecidableEq, Repr

/-- `Response::new()`. -/
def Response.new : Response := {}

/-- `InstantiateMsg` from `msg.rs`. -/
structure InstantiateMsg where
  admins : List String
deriving DecidableEq, Repr

/-- `ExecuteMsg` from `msg.rs`. -/
inductive ExecuteMsg where
  | AddMembers (admins : List String)
  | Leave
deriving DecidableEq, Repr

/-- `QueryMsg` from `msg.rs`. -/
inductive QueryMsg where
  | Greet
  | AdminsList
deriving DecidableEq, Repr

/-- `GreetResp` from `msg.rs`. -/
structure GreetResp where
  message : String
deriving DecidableEq, Repr

/-- `AdminsListResp` from `msg.rs`. -/
structure AdminsListResp where
  admins : List Addr
deriving DecidableEq, Repr

/-- Tagged query response (the value serialized by `to_binary` in `query`). -/
inductive QueryResp where
  | greet (r : GreetResp)
  | adminsList (r : AdminsListResp)
deriving DecidableEq, Repr

/-- The persisted contract storage: the single `ADMINS` item, `none` before
the first save. -/
abbrev Storage := Option (List Addr)

/-- The external address validator, `deps.api.addr_validate`. -/
abbrev Validator := String → Except StdError Addr

/-- `ADMINS.load(deps.storage)`: fails with a not-found error when the item
was never saved. -/
def ADMINS_load (storage : Storage) : Except StdError (List Addr) :=
  match storage with
  | some admins => .ok admins
  | none => .error .notFound

/-- `ADMINS.save(deps.storage, &admins)`: overwrites the stored item. -/
def ADMINS_save (_storage : Storage) (admins : List Addr) : Storage :=
  some admins

/-- `admins.into_iter().map(|addr| deps.api.addr_validate(&addr)).collect()`:
validate every raw identity, short-circuiting at the first rejection. -/
def collectValidate (api : Validator) : List String → Except StdError (List Addr)
  | [] => .ok []
  | raw :: rest =>
    match api raw with
    | .error e => .error e
    | .ok addr =>
      match collectValidate api rest with
      | .error e => .error e
      | .ok addrs => .ok (addr :: addrs)

/-- `contract::instantiate`: validate all raw admins (all-or-nothing), save
the validated sequence, return an empty response. -/
def instantiate (api : Validator) (storage : Storage) (msg : InstantiateMsg) :
    Except StdError Response × Storage :=
  match collectValidate api msg.admins with
  | .error e => (.error e, storage)
  | .ok admins => (.ok Response.new, ADMINS_save storage admins)

/-- `exec::add_members`: load the current admins, reject a sender that is not
among them, validate the submitted raw identities, append and save. -/
def add_members (api : Validator) (storage : Storage) (info : MessageInfo)
    (admins : List String) : Except ContractError Response × Storage :=
  match ADMINS_load storage with
  | .error e => (.error (.std e), storage)
  | .ok curr_admins =>
    if !curr_admins.contains info.sender then
      (.error (.unauthorized info.sender), storage)
    else
      match collectValidate api admins with
      | .error e => (.error (.std e), storage)
      | .ok newAdmins =>
        (.ok Response.new, ADMINS_save storage (curr_admins ++ newAdmins))

/-- `exec::leave`: `ADMINS.update` with a closure keeping every admin
different from the sender (load, filter, save). -/
def leave (storage : Storage) (info : MessageInfo) :
    Except StdError Response × Storage :=
  match ADMINS_load storage with
  | .error e => (.error e, storage)
  | .ok admins =>
    (.ok Response.new,
      ADMINS_save storage (admins.filter (fun admin => admin != info.sender)))

/-- `contract::execute`: dispatch on the execute message. -/
def execute (api : Validator) (storage : Storage) (info : MessageInfo)
    (msg : ExecuteMsg) : Except ContractError Response × Storage :=
  match msg with
  | .AddMembers admins => add_members api storage info admins
  | .Leave =>
    match leave storage info with
    | (.error e, storage) => (.error (.std e), storage)
    | (.ok resp, storage) => (.ok resp, storage)

/-- `query::greet`: a fixed response, no storage access. -/
def greet : Except StdError GreetResp :=
  .ok { message := "Hello World" }

/-- `query::admins_list`: load the stored admins and wrap them. -/
def admins_list (storage : Storage) : Except StdError AdminsListResp :=
  match ADMINS_load storage with
  | .error e => .error e
  | .ok admins => .ok { admins := admins }

/-- `contract::query`: dispatch on the query message.  The storage is
threaded through like in the execute path so that the embedding could
express a write; the Rust handlers only ever read. -/
def query (storage : Storage) (msg : QueryMsg) :
    Except StdError QueryResp × Storage :=
  match msg with
  | .Greet =>
    match greet with
    | .error e => (.error e, storage)
    | .ok r => (.ok (.greet r), storage)
  | .AdminsList =>
    match admins_list storage with
    | .error e => (.error e, storage)
    | .ok r => (.ok (.adminsList r), storage)

/-- The admins currently persisted (empty when uninitialized). -/
def adminsOf (storage : Storage) : List Addr :=
  match storage with
  | some admins => admins
  | none => []

/-- Run a sequence of execute calls, each starting from the storage the
previous one returned. -/
def execMany (api : Validator) (storage : Storage) :
    List (MessageInfo × ExecuteMsg) → Storage
  | [] => storage
  | (info, msg) :: rest => execMany api (execute api storage info msg).2 rest

/-- The storages reachable through the public operations: a successful
`instantiate` from uninitialized storage, followed by any number of
`execute` calls (queries thread the storage back unchanged). -/
inductive Reachable (api : Validator) : Storage → Prop where
  | init (msg : InstantiateMsg) (r : Response) (s : Storage)
      (h : instantiate api none msg = (.ok r, s)) : Reachable api s
  | stepExec (s : Storage) (info : MessageInfo) (msg : ExecuteMsg)
      (h : Reachable api s) : Reachable api (execute api s info msg).2

/-- A sample validator used in witnesses: rejects the empty string and
accepts anything else verbatim. -/
def api0 : Validator := fun raw =>
  if raw = "" then .error (.validationError raw) else .ok raw

example : instantiate api0 none ⟨["admin1", "admin2"]⟩
    = (.ok Response.new, some ["admin1", "admin2"]) := by decide

example : (add_members api0 (some []) ⟨"user"⟩ ["user"]).1
    = .error (.unauthorized "user") := by decide

example : leave (some ["admin1"]) ⟨"admin1"⟩ = (.ok Response.new, some []) := by
  decide

/-- C1: for every state and every caller whose identity is not in the stored
admin set, `add_members` fails with `Unauthorized` carrying the caller, with
the storage untouched; the statement holds for every validator `api`, so the
outcome is independent of any validation verdict on the submitted raw
identities — an unauthorized caller never learns whether they would have
validated. -/
theorem addMembers_unauthorized_before_validation
    (api : Validator) (storage : Storage) (curr : List Addr)
    (info : MessageInfo) (admins : List String)
    (hload : ADMINS_load storage = .ok curr)
    (hnot : curr.contains info.sender = false) :
    add_members api storage info admins
      = (.error (.unauthorized info.sender), storage) := by
  unfold add_members
  rw [hload]
  simp at hnot
  simp [hnot]

theorem addMembers_unauthorized_before_validation_witness :
    ADMINS_load (some ["owner"]) = .ok ["owner"]
    ∧ (["owner"] : List Addr).contains "user" = false
    ∧ add_members api0 (some ["owner"]) ⟨"user"⟩ ["user"]
        = (.error (.unauthorized "user"), some ["owner"]) :=
  ⟨rfl, by decide,
    addMembers_unauthorized_before_validation api0 (some ["owner"]) ["owner"]
      ⟨"user"⟩ ["user"] rfl (by decide)⟩

/-- C2: every operation is all-or-nothing — whenever `instantiate` returns an
error, and whenever `execute` (so `AddMembers` with `Unauthorized` or a
validation failure, and `Leave`) returns an error, the storage returned is
exactly the storage passed in. -/
theorem operations_all_or_nothing
    (api : Validator) (storage : Storage) (msg : InstantiateMsg)
    (info : MessageInfo) (emsg : ExecuteMsg) :
    (∀ e, (instantiate api storage msg).1 = .error e
        → (instantiate api storage msg).2 = storage)
    ∧ (∀ e, (execute api storage info emsg).1 = .error e
        → (execute api storage info emsg).2 = storage) := by
  constructor
  · intro e h
    unfold instantiate at h ⊢
    cases hcv : collectValidate api msg.admins <;> simp [hcv] at h ⊢
  · intro e h
    cases emsg with
    | AddMembers admins =>
      simp only [execute] at h ⊢
      cases hload : ADMINS_load storage with
      | error err => simp [add_members, hload]
      | ok curr =>
        by_cases hauth : info.sender ∈ curr
        · cases hcv : collectValidate api admins with
          | error e2 => simp [add_members, hload, hcv, hauth]
          | ok newAdmins => simp [add_members, hload, hauth, hcv] at h
        · simp [add_members, hload, hauth]
    | Leave =>
      simp only [execute] at h ⊢
      cases hload : ADMINS_load storage with
      | error err => simp [leave, hload]
      | ok curr => simp [leave, hload] at h

theorem operations_all_or_nothing_witness :
    (instantiate api0 (some ["owner"]) ⟨[""]⟩).1
      = .error (.validationError "")
    ∧ (instantiate api0 (some ["owner"]) ⟨[""]⟩).2 = some ["owner"]
    ∧ (execute api0 (some ["owner"]) ⟨"user"⟩ (.AddMembers ["x"])).1
      = .error (.unauthorized "user")
    ∧ (execute api0 (some ["owner"]) ⟨"user"⟩ (.AddMembers ["x"])).2
      = some ["owner"] :=
  ⟨by decide,
    (operations_all_or_nothing api0 (some ["owner"]) ⟨[""]⟩ ⟨"user"⟩
      (.AddMembers ["x"])).1 (.validationError "") (by decide),
    by decide,
    (operations_all_or_nothing api0 (some ["owner"]) ⟨[""]⟩ ⟨"user"⟩
      (.AddMembers ["x"])).2 (.unauthorized "user") (by decide)⟩

/-- C3: for every state, every caller stored in the admin set and every list
of raw identities that all validate, `add_members` succeeds and the stored
admin set afterwards is the old one with the validated identities appended at
the end, in submission order, without any duplicate suppression. -/
theorem addMembers_success_appends
    (api : Validator) (storage : Storage) (curr : List Addr)
    (info : MessageInfo) (admins : List String) (newAdmins : List Addr)
    (hload : ADMINS_load storage = .ok curr)
    (hauth : info.sender ∈ curr)
    (hval : collectValidate api admins = .ok newAdmins) :
    add_members api storage info admins
      = (.ok Response.new, some (curr ++ newAdmins)) := by
  simp [add_members, hload, hauth, hval, ADMINS_save]

theorem addMembers_success_appends_witness :
    ADMINS_load (some ["admin1"]) = .ok ["admin1"]
    ∧ "admin1" ∈ (["admin1"] : List Addr)
    ∧ collectValidate api0 ["admin2"] = .ok ["admin2"]
    ∧ add_members api0 (some ["admin1"]) ⟨"admin1"⟩ ["admin2"]
        = (.ok Response.new, some (["admin1"] ++ ["admin2"])) :=
  ⟨rfl, by decide, by decide,
    addMembers_success_appends api0 (some ["admin1"]) ["admin1"] ⟨"admin1"⟩
      ["admin2"] ["admin2"] rfl (by decide) (by decide)⟩

/-- C4: for every state and every caller, `leave` succeeds with no
authorization check, the stored admin set afterwards is the old one with
every occurrence of the caller removed (a filter), the caller is absent
afterwards, and when the caller was not stored the admin set is unchanged
(idempotent no-op). -/
theorem leave_removes_caller
    (storage : Storage) (curr : List Addr) (info : MessageInfo)
    (hload : ADMINS_load storage = .ok curr) :
    leave storage info
      = (.ok Response.new,
          some (curr.filter (fun admin => admin != info.sender)))
    ∧ info.sender ∉ adminsOf (leave storage info).2
    ∧ (info.sender ∉ curr → (leave storage info).2 = some curr) := by
  have hlv : leave storage info
      = (.ok Response.new,
          some (curr.filter (fun admin => admin != info.sender))) := by
    simp [leave, hload, ADMINS_save]
  refine ⟨hlv, ?_, ?_⟩
  · rw [hlv]
    simp [adminsOf, List.mem_filter]
  · intro hns
    rw [hlv]
    have hfix : curr.filter (fun admin => admin != info.sender) = curr :=
      List.filter_eq_self.mpr (fun a ha => by
        simp
        rintro rfl
        exact hns ha)
    rw [hfix]

theorem leave_removes_caller_witness :
    leave (some ["admin1", "bob", "admin1"]) ⟨"admin1"⟩
      = (.ok Response.new, some ["bob"])
    ∧ (leave (some ["bob"]) ⟨"carol"⟩).2 = some ["bob"] :=
  ⟨(leave_removes_caller (some ["admin1", "bob", "admin1"])
      ["admin1", "bob", "admin1"] ⟨"admin1"⟩ rfl).1.trans (by decide),
   (leave_removes_caller (some ["bob"]) ["bob"] ⟨"carol"⟩ rfl).2.2 (by decide)⟩

/-- C5: the `AdminsList` query loads and returns the currently stored admin
set verbatim, in stored order, leaving the storage untouched. -/
theorem adminsList_returns_stored
    (storage : Storage) (curr : List Addr)
    (hload : ADMINS_load storage = .ok curr) :
    query storage .AdminsList
      = (.ok (.adminsList { admins := curr }), storage) := by
  simp [query, admins_list, hload]

theorem adminsList_returns_stored_witness :
    (instantiate api0 none ⟨[]⟩).2 = some []
    ∧ query (some []) .AdminsList
        = (.ok (.adminsList { admins := [] }), some [])
    ∧ (instantiate api0 none ⟨["admin1", "admin2"]⟩).2
        = some ["admin1", "admin2"]
    ∧ query (some ["admin1", "admin2"]) .AdminsList
        = (.ok (.adminsList { admins := ["admin1", "admin2"] }),
            some ["admin1", "admin2"]) :=
  ⟨by decide, adminsList_returns_stored (some []) [] rfl,
   by decide,
   adminsList_returns_stored (some ["admin1", "admin2"])
     ["admin1", "admin2"] rfl⟩

/-- C6: for every state, the `Greet` query succeeds with exactly the response
with message "Hello World", independent of the stored admin set, the caller
(queries carry no caller) and any prior operation. -/
theorem greet_hello_world (storage : Storage) :
    query storage .Greet
      = (.ok (.greet { message := "Hello World" }), storage) := by
  simp [query, greet]

/-- C7: query operations never mutate the persisted state: for every storage
and every query message, the storage after the query equals the storage
before. -/
theorem query_never_mutates (storage : Storage) (msg : QueryMsg) :
    (query storage msg).2 = storage := by
  cases msg with
  | Greet => simp [query, greet]
  | AdminsList =>
    unfold query
    cases h : admins_list storage <;> simp

/-- Every address in a successfully collected validation result comes from a
successful run of the validator. -/
theorem collectValidate_ok_mem (api : Validator) :
    ∀ (raws : List String) (addrs : List Addr),
      collectValidate api raws = .ok addrs →
      ∀ a ∈ addrs, ∃ raw, api raw = .ok a := by
  intro raws
  induction raws with
  | nil =>
    intro addrs h a ha
    simp [collectValidate] at h
    subst h
    simp at ha
  | cons raw rest ih =>
    intro addrs h a ha
    unfold collectValidate at h
    cases hapi : api raw with
    | error e => rw [hapi] at h; simp at h
    | ok addr =>
      rw [hapi] at h
      cases hrest : collectValidate api rest with
      | error e => rw [hrest] at h; simp at h
      | ok addrs2 =>
        rw [hrest] at h
        simp at h
        subst h
        rcases List.mem_cons.mp ha with rfl | hmem
        · exact ⟨raw, hapi⟩
        · exact ih addrs2 hrest a hmem

/-- One execute step keeps every stored admin in the range of the
validator. -/
theorem execute_keeps_validated (api : Validator) (storage : Storage)
    (info : MessageInfo) (msg : ExecuteMsg)
    (hinv : ∀ a ∈ adminsOf storage, ∃ raw, api raw = .ok a) :
    ∀ a ∈ adminsOf (execute api storage info msg).2,
      ∃ raw, api raw = .ok a := by
  cases msg with
  | AddMembers admins =>
    cases storage with
    | none => simp [execute, add_members, ADMINS_load, adminsOf]
    | some curr =>
      by_cases hauth : info.sender ∈ curr
      · cases hcv : collectValidate api admins with
        | error e =>
          simpa [execute, add_members, ADMINS_load, hauth, hcv, adminsOf]
            using hinv
        | ok newAdmins =>
          intro a ha
          simp [execute, add_members, ADMINS_load, hauth, hcv, ADMINS_save,
            adminsOf] at ha
          rcases ha with hold | hnew
          · exact hinv a hold
          · exact collectValidate_ok_mem api admins newAdmins hcv a hnew
      · simpa [execute, add_members, ADMINS_load, hauth, adminsOf] using hinv
  | Leave =>
    cases storage with
    | none => simp [execute, leave, ADMINS_load, adminsOf]
    | some curr =>
      intro a ha
      simp [execute, leave, ADMINS_load, ADMINS_save, adminsOf,
        List.mem_filter] at ha
      exact hinv a ha.1

/-- C8: in every storage reachable through the public operations (a
successful instantiation followed by execute calls), every stored admin is an
identity on which the validator succeeded when it was added; each operation
preserves this invariant. -/
theorem reachable_admins_validated (api : Validator) (storage : Storage)
    (h : Reachable api storage) :
    ∀ a ∈ adminsOf storage, ∃ raw, api raw = .ok a := by
  induction h with
  | init msg r s hins =>
    intro a ha
    unfold instantiate at hins
    cases hcv : collectValidate api msg.admins with
    | error e => rw [hcv] at hins; simp at hins
    | ok addrs =>
      rw [hcv] at hins
      rw [Prod.mk.injEq] at hins
      rcases hins with ⟨h1, h2⟩
      rw [← h2] at ha
      simp [ADMINS_save, adminsOf] at ha
      exact collectValidate_ok_mem api msg.admins addrs hcv a ha
  | stepExec s info msg hr ih => exact execute_keeps_validated api s info msg ih

theorem reachable_admins_validated_witness :
    ∃ raw, api0 raw = Except.ok "admin1" :=
  reachable_admins_validated api0 (some ["admin1"])
    (Reachable.init ⟨["admin1"]⟩ Response.new (some ["admin1"]) (by decide))
    "admin1" (by decide)

/-- C9: `leave` keeps the relative order and the multiplicity of every admin
different from the caller — the resulting sequence is exactly the filter of
the previous one, hence a sublist of it, and the count of every non-caller
admin is unchanged. -/
theorem leave_preserves_others
    (storage : Storage) (curr : List Addr) (info : MessageInfo)
    (hload : ADMINS_load storage = .ok curr) :
    adminsOf (leave storage info).2
        = curr.filter (fun admin => admin != info.sender)
    ∧ (adminsOf (leave storage info).2).Sublist curr
    ∧ ∀ a, a ≠ info.sender →
        (adminsOf (leave storage info).2).count a = curr.count a := by
  have h2 : (leave storage info).2
      = some (curr.filter (fun admin => admin != info.sender)) := by
    simp [leave, hload, ADMINS_save]
  rw [h2]
  refine ⟨rfl, List.filter_sublist curr, ?_⟩
  intro a hne
  exact List.count_filter (by simp [hne])

theorem leave_preserves_others_witness :
    adminsOf (leave (some ["a", "b", "a", "c", "b"]) ⟨"b"⟩).2 = ["a", "a", "c"]
    ∧ (adminsOf (leave (some ["a", "b", "a", "c", "b"]) ⟨"b"⟩).2).count "a"
        = (["a", "b", "a", "c", "b"] : List Addr).count "a" :=
  ⟨((leave_preserves_others (some ["a", "b", "a", "c", "b"])
      ["a", "b", "a", "c", "b"] ⟨"b"⟩ rfl).1).trans (by decide),
   (leave_preserves_others (some ["a", "b", "a", "c", "b"])
      ["a", "b", "a", "c", "b"] ⟨"b"⟩ rfl).2.2 "a" (by decide)⟩

/-- C10: the empty admin set is absorbing — on an empty stored set every
`add_members` call by any caller fails with `Unauthorized` and keeps the set
empty, `leave` keeps the set empty, and any sequence of execute calls leaves
the set empty forever. -/
theorem empty_admins_absorbing (api : Validator) :
    (∀ (info : MessageInfo) (admins : List String),
        add_members api (some []) info admins
          = (.error (.unauthorized info.sender), some []))
    ∧ (∀ info : MessageInfo,
        leave (some []) info = (.ok Response.new, some []))
    ∧ (∀ msgs : List (MessageInfo × ExecuteMsg),
        execMany api (some []) msgs = some []) := by
  have hstep : ∀ (info : MessageInfo) (msg : ExecuteMsg),
      (execute api (some []) info msg).2 = some [] := by
    intro info msg
    cases msg with
    | AddMembers admins => simp [execute, add_members, ADMINS_load]
    | Leave => simp [execute, leave, ADMINS_load, ADMINS_save]
  refine ⟨?_, ?_, ?_⟩
  · intro info admins
    simp [add_members, ADMINS_load]
  · intro info
    simp [leave, ADMINS_load, ADMINS_save]
  · intro msgs
    induction msgs with
    | nil => rfl
    | cons p rest ih =>
      obtain ⟨info, msg⟩ := p
      show execMany api (execute api (some []) info msg).2 rest = some []
      rw [hstep info msg]
      exact ih
